import Mathlib

/-!
Verification of the daily-notes-app repository against its specification.

Python code is shallowly embedded: Python strings are `List Char` (or Lean
`String` where convenient), Python `int` is `Int`/`Nat`, `None`-returning
fallible code returns `Option`, raised exceptions are `Except.error`, and
calls into external services (bcrypt, the SMTP server, `datetime.strftime`)
are abstract function parameters.  Each definition is translated from the
source file named in its doc comment.
-/

namespace DailyNotes

/-- Python string, embedded as a list of characters. -/
abbrev Str := List Char

/-- Characters stripped by Python `str.strip()` with no argument, i.e. the
characters for which `str.isspace()` is true (ASCII whitespace, the
information separators, NEL, NBSP and the Unicode space/line separators). -/
def pyIsSpace (c : Char) : Bool :=
  (0x09 ≤ c.toNat && c.toNat ≤ 0x0d) || c.toNat == 0x20 ||
  (0x1c ≤ c.toNat && c.toNat ≤ 0x1f) || c.toNat == 0x85 || c.toNat == 0xa0 ||
  c.toNat == 0x1680 || (0x2000 ≤ c.toNat && c.toNat ≤ 0x200a) ||
  c.toNat == 0x2028 || c.toNat == 0x2029 || c.toNat == 0x202f ||
  c.toNat == 0x205f || c.toNat == 0x3000

/-- Removal of leading whitespace, as in Python `str.lstrip()`. -/
def lstrip (s : Str) : Str := s.dropWhile pyIsSpace

/-- Removal of trailing whitespace, as in Python `str.rstrip()`. -/
def rstrip (s : Str) : Str := (lstrip s.reverse).reverse

/-- Python `str.strip()` with no argument: whitespace removed at both ends. -/
def pyStrip (s : Str) : Str := lstrip (rstrip s)

/-- Python `str.strip()` on a Lean `String`. -/
def pyStripS (s : String) : String := ⟨pyStrip s.data⟩

/-- Characters kept by `sanitize_input`'s comprehension
`ord(char) >= 32 or char in '\n\t'` (src/calculations/utils.py). -/
def keepChar (c : Char) : Bool := 32 ≤ c.toNat || c == '\n' || c == '\t'

/-- Embedding of `sanitize_input` (src/calculations/utils.py, lines 43-60):
the empty string is returned unchanged, otherwise control characters other
than newline and tab are removed and the result is stripped. -/
def sanitize_input (text : Str) : Str :=
  if text = [] then [] else pyStrip (text.filter keepChar)

/-- Python slice `s[:k]` for an int `k`: a nonnegative bound takes a prefix
(clamped to the length), a negative bound counts from the end. -/
def pySliceTo (s : Str) (k : Int) : Str :=
  if 0 ≤ k then s.take k.toNat else s.take ((s.length : Int) + k).toNat

/-- Embedding of `truncate_text` (src/calculations/utils.py, lines 84-97):
`text` if it fits in `max_length`, otherwise `text[:max_length-3] + "..."`. -/
def truncate_text (text : Str) (max_length : Int) : Str :=
  if (text.length : Int) ≤ max_length then text
  else pySliceTo text (max_length - 3) ++ ['.', '.', '.']

section StripLemmas

theorem lstrip_head_not_space {s : Str} {c : Char} (h : (lstrip s).head? = some c) :
    pyIsSpace c = false := by
  induction s with
  | nil => simp [lstrip] at h
  | cons a as ih =>
    by_cases ha : pyIsSpace a
    · exact ih (by simpa [lstrip, List.dropWhile, ha] using h)
    · simp only [lstrip, List.dropWhile, ha] at h
      simp only [Bool.false_eq_true, if_false, List.head?] at h
      cases h
      simpa using ha

theorem lstrip_eq_self {s : Str} (h : ∀ c, s.head? = some c → pyIsSpace c = false) :
    lstrip s = s := by
  cases s with
  | nil => rfl
  | cons a as =>
    have := h a rfl
    simp [lstrip, List.dropWhile, this]

theorem lstrip_sublist (s : Str) : (lstrip s).Sublist s :=
  List.dropWhile_sublist _

theorem rstrip_getLast_not_space {s : Str} {c : Char} (h : (rstrip s).getLast? = some c) :
    pyIsSpace c = false := by
  have : (lstrip s.reverse).head? = some c := by
    simpa [rstrip, List.head?_reverse] using h
  exact lstrip_head_not_space this

theorem rstrip_eq_self {s : Str} (h : ∀ c, s.getLast? = some c → pyIsSpace c = false) :
    rstrip s = s := by
  have : lstrip s.reverse = s.reverse := by
    refine lstrip_eq_self ?_
    intro c hc
    exact h c (by simpa [List.head?_reverse] using hc)
  simp [rstrip, this]

theorem rstrip_sublist (s : Str) : (rstrip s).Sublist s := by
  have := lstrip_sublist s.reverse
  simpa [rstrip] using (List.reverse_sublist.mpr this)

theorem pyStrip_sublist (s : Str) : (pyStrip s).Sublist s :=
  (lstrip_sublist _).trans (rstrip_sublist s)

theorem pyStrip_head_not_space {s : Str} {c : Char} (h : (pyStrip s).head? = some c) :
    pyIsSpace c = false :=
  lstrip_head_not_space h

theorem pyStrip_getLast_not_space {s : Str} {c : Char} (h : (pyStrip s).getLast? = some c) :
    pyIsSpace c = false := by
  rcases hr : rstrip s with _ | ⟨a, as⟩
  · simp [pyStrip, hr, lstrip] at h
  · have hsub : (pyStrip s).Sublist (rstrip s) := lstrip_sublist _
    rw [hr] at hsub
    rcases hp : pyStrip s with _ | ⟨b, bs⟩
    · simp [hp] at h
    · -- the last element of `pyStrip s` is the last element of `rstrip s`
      have hlast : (pyStrip s).getLast? = (rstrip s).getLast? := by
        rw [pyStrip]
        rcases List.eq_nil_or_concat (rstrip s) with hnil | ⟨ys, y, hy⟩
        · rw [hnil] at hr; cases hr
        · rw [hy]
          have hylast : pyIsSpace y = false := by
            refine rstrip_getLast_not_space (s := s) ?_
            rw [hy]
            simp [List.getLast?_concat]
          rw [List.concat_eq_append, lstrip, List.dropWhile_append]
          split
          · simp [List.dropWhile, hylast, List.getLast?_append]
          · simp [List.getLast?_append]
      rw [hlast] at h
      exact rstrip_getLast_not_space h

theorem pyStrip_idem (s : Str) : pyStrip (pyStrip s) = pyStrip s := by
  have h1 : rstrip (pyStrip s) = pyStrip s := by
    refine rstrip_eq_self ?_
    intro c hc
    exact pyStrip_getLast_not_space hc
  have h2 : lstrip (pyStrip s) = pyStrip s := by
    refine lstrip_eq_self ?_
    intro c hc
    exact pyStrip_head_not_space hc
  rw [pyStrip, h1, h2]

end StripLemmas

/-- C9: `sanitize_input` is idempotent, its output consists only of characters
with code point at least 32 or newline/tab, and the output has no leading or
trailing whitespace (src/calculations/utils.py, lines 43-60). -/
theorem sanitize_input_idempotent_and_clean (text : Str) :
    sanitize_input (sanitize_input text) = sanitize_input text ∧
    (∀ c ∈ sanitize_input text, 32 ≤ c.toNat ∨ c = '\n' ∨ c = '\t') ∧
    (∀ c, (sanitize_input text).head? = some c → pyIsSpace c = false) ∧
    (∀ c, (sanitize_input text).getLast? = some c → pyIsSpace c = false) := by
  have hmem : ∀ c ∈ sanitize_input text, keepChar c = true := by
    intro c hc
    unfold sanitize_input at hc
    split at hc
    · simp at hc
    · have : c ∈ text.filter keepChar := (pyStrip_sublist _).subset hc
      exact (List.mem_filter.mp this).2
  refine ⟨?_, ?_, ?_, ?_⟩
  · unfold sanitize_input
    by_cases ht : text = []
    · simp [ht]
    · rw [if_neg ht]
      by_cases hp : pyStrip (text.filter keepChar) = []
      · rw [hp]
        simp
      · rw [if_neg hp]
        have hfix : (pyStrip (text.filter keepChar)).filter keepChar
            = pyStrip (text.filter keepChar) := by
          refine List.filter_eq_self.mpr ?_
          intro a ha
          have : a ∈ text.filter keepChar := (pyStrip_sublist _).subset ha
          exact (List.mem_filter.mp this).2
        rw [hfix, pyStrip_idem]
  · intro c hc
    have := hmem c hc
    simp only [keepChar, Bool.or_eq_true, decide_eq_true_eq, beq_iff_eq] at this
    rcases this with (h | h) | h
    · exact Or.inl h
    · exact Or.inr (Or.inl h)
    · exact Or.inr (Or.inr h)
  · intro c hc
    unfold sanitize_input at hc
    split at hc
    · simp at hc
    · exact pyStrip_head_not_space hc
  · intro c hc
    unfold sanitize_input at hc
    split at hc
    · simp at hc
    · exact pyStrip_getLast_not_space hc

/-- C10: for `max_length ≥ 3`, `truncate_text` returns the text unchanged when
it fits, and otherwise a string of length exactly `max_length` ending in
`"..."`; the result never exceeds `max_length` characters
(src/calculations/utils.py, lines 84-97). -/
theorem truncate_text_spec (text : Str) (max_length : Int) (h3 : 3 ≤ max_length) :
    ((text.length : Int) ≤ max_length → truncate_text text max_length = text) ∧
    (max_length < (text.length : Int) →
      ((truncate_text text max_length).length : Int) = max_length ∧
      ['.', '.', '.'] <:+ truncate_text text max_length) ∧
    ((truncate_text text max_length).length : Int) ≤ max_length := by
  refine ⟨?_, ?_, ?_⟩
  · intro hle
    simp [truncate_text, hle]
  · intro hgt
    constructor
    · unfold truncate_text
      rw [if_neg (by omega)]
      unfold pySliceTo
      rw [if_pos (by omega)]
      rw [List.length_append, List.length_take]
      have hlen : (max_length - 3).toNat ≤ text.length := by omega
      simp only [List.length_cons, List.length_nil]
      omega
    · unfold truncate_text
      rw [if_neg (by omega)]
      exact List.suffix_append _ _
  · unfold truncate_text
    split
    · next hle => exact hle
    · next hgt =>
      unfold pySliceTo
      rw [if_pos (by omega)]
      rw [List.length_append, List.length_take]
      have : ¬ (text.length : Int) ≤ max_length := hgt
      simp only [List.length_cons, List.length_nil]
      omega

/-- Characters matched by the regex class `\s`.  Python's `re` on `str`
matches `\s` against exactly the characters for which `str.isspace()` is
true, so this is the same set as `pyIsSpace`. -/
def reSpaceChar (c : Char) : Bool := pyIsSpace c

/-- Matching a literal pattern fragment at the head of the input, returning
the rest of the input on success.  `litEq p c` decides whether input
character `c` matches pattern literal `p` under `re.IGNORECASE`; like
`bcrypt` or `strftime`, this character-level lookup into the Unicode case
tables is external to the program and is abstracted as a parameter. -/
def matchLit (litEq : Char → Char → Bool) : Str → Str → Option Str
  | [], s => some s
  | _ :: _, [] => none
  | p :: ps, c :: cs => if litEq p c then matchLit litEq ps cs else none

/-- Matching of `.*?</script>` : some run of non-newline characters followed
by the literal `</script>` (case-insensitive via `litEq`). -/
def scanEndScript (litEq : Char → Char → Bool) : Str → Bool
  | [] => false
  | c :: cs =>
    (matchLit litEq ['<', '/', 's', 'c', 'r', 'i', 'p', 't', '>'] (c :: cs)).isSome ||
    (c != '\n' && scanEndScript litEq cs)

/-- Matching of `.*?>` followed by `p` : some run of non-newline characters,
then a literal `>`, then a continuation matched by `p`. -/
def scanGtThen (p : Str → Bool) : Str → Bool
  | [] => false
  | c :: cs => (c == '>' && p cs) || (c != '\n' && scanGtThen p cs)

/-- Matching of `<script.*?>.*?</script>` at the current position. -/
def matchScriptAt (litEq : Char → Char → Bool) (s : Str) : Bool :=
  match matchLit litEq ['<', 's', 'c', 'r', 'i', 'p', 't'] s with
  | none => false
  | some r => scanGtThen (scanEndScript litEq) r

/-- Running a position matcher at every position of the input, as `re.search`
does (including the final empty position). -/
def anyTail (f : Str → Bool) : Str → Bool
  | [] => f []
  | c :: cs => f (c :: cs) || anyTail f cs

/-- Search for the pattern `<script.*?>.*?</script>` (first dangerous pattern
of `validate_note_content`). -/
def hasScriptTag (litEq : Char → Char → Bool) (s : Str) : Bool :=
  anyTail (matchScriptAt litEq) s

/-- Search for the pattern `javascript:` (second dangerous pattern). -/
def hasJsUrl (litEq : Char → Char → Bool) (s : Str) : Bool :=
  anyTail (fun t =>
    (matchLit litEq ['j', 'a', 'v', 'a', 's', 'c', 'r', 'i', 'p', 't', ':'] t).isSome) s

/-- Matching of `on\w+\s*=` at the current position (the tail of the third
dangerous pattern, after the required `\s`).  `wordChar` decides the regex
class `\w`; like `litEq` it is a lookup into the Unicode character database,
external to the program, and is abstracted as a parameter. -/
def matchOnEq (wordChar : Char → Bool) (litEq : Char → Char → Bool) (s : Str) : Bool :=
  match matchLit litEq ['o', 'n'] s with
  | none => false
  | some w =>
    match w with
    | [] => false
    | c :: _ =>
      wordChar c &&
      ((w.dropWhile wordChar).dropWhile reSpaceChar).head? == some '='

/-- Matching of `[^>]*\son\w+\s*=` : a run of non-`>` characters, then a
whitespace character, then `on\w+\s*=`. -/
def scanTagBody (wordChar : Char → Bool) (litEq : Char → Char → Bool) : Str → Bool
  | [] => false
  | c :: cs =>
    (reSpaceChar c && matchOnEq wordChar litEq cs) ||
    (c != '>' && scanTagBody wordChar litEq cs)

/-- Matching of `<[^>]*\son\w+\s*=` at the current position. -/
def matchEventInTagAt (wordChar : Char → Bool) (litEq : Char → Char → Bool) : Str → Bool
  | [] => false
  | c :: cs => c == '<' && scanTagBody wordChar litEq cs

/-- Search for the pattern `<[^>]*\son\w+\s*=` (third dangerous pattern). -/
def hasEventInTag (wordChar : Char → Bool) (litEq : Char → Char → Bool) (s : Str) : Bool :=
  anyTail (matchEventInTagAt wordChar litEq) s

/-- Quote characters of the class `["']`. -/
def isQuote (c : Char) : Bool := c == '"' || c == '\''

/-- Matching of `on\w+\s*=\s*["'][^"']*["']` at the current position; the
trailing `[^"']*["']` succeeds exactly when a quote character occurs later. -/
def matchHandlerAt (wordChar : Char → Bool) (litEq : Char → Char → Bool) (s : Str) : Bool :=
  match matchLit litEq ['o', 'n'] s with
  | none => false
  | some w =>
    match w with
    | [] => false
    | c :: _ =>
      wordChar c &&
      (match (w.dropWhile wordChar).dropWhile reSpaceChar with
       | '=' :: r2 =>
         (match r2.dropWhile reSpaceChar with
          | q :: r3 => isQuote q && r3.any isQuote
          | [] => false)
       | _ => false)

/-- Search for `\bon\w+\s*=\s*["'][^"']*["']` (fourth dangerous pattern): the
position matcher is tried wherever the word-boundary `\b` holds, i.e. at the
start of the string or after a non-`\w` character. -/
def searchHandler (wordChar : Char → Bool) (litEq : Char → Char → Bool) :
    Option Char → Str → Bool
  | _, [] => false
  | prev, c :: cs =>
    ((match prev with | none => true | some p => !wordChar p) &&
      matchHandlerAt wordChar litEq (c :: cs)) ||
    searchHandler wordChar litEq (some c) cs

/-- Disjunction of the four `dangerous_patterns` searches of
`validate_note_content` (src/calculations/utils.py, lines 30-39), for a
given `\w` class `wordChar` and `IGNORECASE` literal matcher `litEq`. -/
def dangerousContent (wordChar : Char → Bool) (litEq : Char → Char → Bool)
    (content : Str) : Bool :=
  hasScriptTag litEq content || hasJsUrl litEq content ||
  hasEventInTag wordChar litEq content ||
  searchHandler wordChar litEq none content

/-- Embedding of `validate_note_content` (src/calculations/utils.py, lines
7-41): emptiness, minimum stripped length, maximum raw length and the four
dangerous-pattern searches, checked in order. -/
def validate_note_content (wordChar : Char → Bool) (litEq : Char → Char → Bool)
    (content : Str) : Bool × String :=
  if pyStrip content = [] then (false, "Note content cannot be empty.")
  else if (pyStrip content).length < 5 then
    (false, "Note must be at least 5 characters long.")
  else if 5000 < content.length then (false, "Note cannot exceed 5000 characters.")
  else if dangerousContent wordChar litEq content then
    (false, "Note contains potentially harmful content.")
  else (true, "")

/-- C4: `validate_note_content` returns `(true, "")` exactly when the stripped
content is non-empty with at least 5 characters, the raw content is at most
5000 characters, and none of the four dangerous patterns matches; otherwise it
returns `false` with the message of the first failing check.  The statement
holds for every instantiation of the Unicode `\w` class and `IGNORECASE`
literal matcher (src/calculations/utils.py, lines 7-41). -/
theorem validate_note_content_spec (wordChar : Char → Bool)
    (litEq : Char → Char → Bool) (content : Str) :
    (validate_note_content wordChar litEq content = (true, "") ↔
      (pyStrip content ≠ [] ∧ 5 ≤ (pyStrip content).length ∧
        content.length ≤ 5000 ∧ dangerousContent wordChar litEq content = false)) ∧
    (validate_note_content wordChar litEq content =
        (false, "Note content cannot be empty.") ↔
      pyStrip content = []) ∧
    (validate_note_content wordChar litEq content =
        (false, "Note must be at least 5 characters long.") ↔
      (pyStrip content ≠ [] ∧ (pyStrip content).length < 5)) ∧
    (validate_note_content wordChar litEq content =
        (false, "Note cannot exceed 5000 characters.") ↔
      (pyStrip content ≠ [] ∧ 5 ≤ (pyStrip content).length ∧ 5000 < content.length)) ∧
    (validate_note_content wordChar litEq content =
        (false, "Note contains potentially harmful content.") ↔
      (pyStrip content ≠ [] ∧ 5 ≤ (pyStrip content).length ∧
        content.length ≤ 5000 ∧ dangerousContent wordChar litEq content = true)) := by
  unfold validate_note_content
  split_ifs with h1 h2 h3 h4 <;>
    refine ⟨?_, ?_, ?_, ?_, ?_⟩ <;>
    simp_all [Prod.ext_iff]

/-- C10 witness: `truncate_text_spec` applied at a concrete input. -/
theorem truncate_text_spec_witness :
    (3 : Int) ≤ 5 ∧
    (((truncate_text ['a', 'b', 'c', 'd', 'e', 'f'] 5).length : Int) = 5 ∧
      ['.', '.', '.'] <:+ truncate_text ['a', 'b', 'c', 'd', 'e', 'f'] 5) :=
  ⟨by norm_num,
   (truncate_text_spec ['a', 'b', 'c', 'd', 'e', 'f'] 5 (by norm_num)).2.1 (by norm_num)⟩

/-- Python `a or b` on an optional string: `None` and `""` are falsy. -/
def pyOrStr (o : Option String) (d : String) : String :=
  match o with
  | some s => if s = "" then d else s
  | none => d

/-- Row of the `app_users` table as selected by `get_user_by_username`
(src/components/database.py, lines 259-277). -/
structure AuthUser where
  id : Nat
  username : String
  email : String
  password_hash : String
  display_name : String
  is_active : Bool

/-- Embedding of `DatabaseManager.get_user_by_username` (src/components/
database.py, lines 259-277): the first row with the given username and
`is_active = TRUE`; a connection or query error (`dbError`) yields `None`. -/
def get_user_by_username (dbError : Bool) (users : List AuthUser) (username : String) :
    Option AuthUser :=
  if dbError then none
  else users.find? (fun u => u.username == username && u.is_active)

/-- Embedding of `SimpleAuthService.verify_password` (src/components/
simple_auth.py, lines 65-70).  `bcrypt.checkpw` is abstracted as `checkpw`,
returning `none` when it raises; the wrapper turns that into `false`. -/
def verify_password (checkpw : String → String → Option Bool)
    (password hashed : String) : Bool :=
  (checkpw password hashed).getD false

/-- Embedding of `SimpleAuthService.login_user` (src/components/
simple_auth.py, lines 131-156): empty username or password, an unknown or
inactive username, a database error, or a failed password check all yield
`None`; otherwise the user row is returned.  (`update_user_last_login`
catches its own errors and does not affect the returned value.) -/
def login_user (checkpw : String → String → Option Bool) (dbError : Bool)
    (users : List AuthUser) (username password : String) : Option AuthUser :=
  if username = "" ∨ password = "" then none
  else
    match get_user_by_username dbError users username with
    | none => none
    | some user =>
      if verify_password checkpw password user.password_hash then some user
      else none

/-- C1: `login_user` returns a user exactly when username and password are
non-empty, no database error occurs, an active user with that username is
found, and bcrypt verification of the password against the stored hash
succeeds; in every other case it returns `None`
(src/components/simple_auth.py, lines 65-70 and 131-156). -/
theorem login_user_spec (checkpw : String → String → Option Bool) (dbError : Bool)
    (users : List AuthUser) (username password : String) :
    (∀ u, login_user checkpw dbError users username password = some u ↔
      (username ≠ "" ∧ password ≠ "" ∧ dbError = false ∧
        users.find? (fun v => v.username == username && v.is_active) = some u ∧
        checkpw password u.password_hash = some true)) ∧
    (login_user checkpw dbError users username password = none ↔
      ¬ ∃ u, username ≠ "" ∧ password ≠ "" ∧ dbError = false ∧
        users.find? (fun v => v.username == username && v.is_active) = some u ∧
        checkpw password u.password_hash = some true) ∧
    (∀ u, login_user checkpw dbError users username password = some u →
      u.is_active = true ∧ u.username = username) := by
  have hmain : ∀ u, login_user checkpw dbError users username password = some u ↔
      (username ≠ "" ∧ password ≠ "" ∧ dbError = false ∧
        users.find? (fun v => v.username == username && v.is_active) = some u ∧
        checkpw password u.password_hash = some true) := by
    intro u
    unfold login_user get_user_by_username verify_password
    by_cases hu : username = ""
    · simp [hu]
    · by_cases hp : password = ""
      · simp [hu, hp]
      · by_cases hd : dbError
        · simp [hu, hp, hd]
        · cases hfind : users.find? (fun v => v.username == username && v.is_active) with
          | none => simp [hu, hp, hd, hfind]
          | some v =>
            cases hck : checkpw password v.password_hash with
            | none =>
              simp [hu, hp, hd, hfind, hck]
              rintro rfl
              simp [hck]
            | some b =>
              cases b with
              | false =>
                simp [hu, hp, hd, hfind, hck]
                rintro rfl
                simp [hck]
              | true =>
                simp [hu, hp, hd, hfind, hck]
                rintro rfl
                exact hck
  refine ⟨hmain, ?_, ?_⟩
  · cases hlog : login_user checkpw dbError users username password with
    | none =>
      simp only [true_iff]
      rintro ⟨u, hu⟩
      have := (hmain u).mpr hu
      rw [hlog] at this
      cases this
    | some u =>
      simp only [reduceCtorEq, false_iff, not_not]
      exact ⟨u, (hmain u).mp hlog⟩
  · intro u hlog
    obtain ⟨-, -, -, hfind, -⟩ := (hmain u).mp hlog
    have := List.find?_some hfind
    simp only [Bool.and_eq_true, beq_iff_eq] at this
    exact ⟨this.2, this.1⟩

/-- SMTP configuration as resolved by `get_smtp_config`
(src/integrations/email_sender.py, lines 58-106). -/
structure SmtpConfig where
  host : String
  port : Int
  user : Option String
  password : Option String
  fromAddr : Option String
  use_tls : Bool
  use_ssl : Bool

/-- The MIME message assembled by `send_email` before the SMTP exchange. -/
structure EmailMsg where
  subject : String
  fromAddr : String
  toAddr : String
  body : String

/-- Embedding of `send_email` (src/integrations/email_sender.py, lines
113-165).  `cfg?` is the result of `get_smtp_config`; the whole SMTP
exchange (connect, STARTTLS, login, send) is abstracted as `smtpRun`, which
returns `some message` when any step raises.  `Except.error e` models a
raised `EmailSendError e`. -/
def send_email : Option SmtpConfig → (EmailMsg → Option String) →
    String → String → String → Except String Bool
  | none, _, _, _, _ =>
    .error "Missing SMTP configuration. Add [smtp] section to .streamlit/secrets.toml."
  | some cfg, smtpRun, to_address, subject, body =>
    if pyStripS to_address = "" ∨ '@' ∉ (pyStripS to_address).data then
      .error "Invalid recipient email address."
    else
      match smtpRun ⟨(if subject = "" then "Weekly Update" else subject),
                     pyStripS (pyOrStr cfg.fromAddr (pyOrStr cfg.user "no-reply@example.com")),
                     pyStripS to_address, body⟩ with
      | some e => .error e
      | none => .ok true

/-- C5: `send_email` raises `EmailSendError` whenever the SMTP configuration
cannot be resolved or the stripped recipient is empty or lacks an `'@'`, and
in every execution it either returns `True` or raises — it never returns
`False` (src/integrations/email_sender.py, lines 113-165). -/
theorem send_email_spec (cfg? : Option SmtpConfig) (smtpRun : EmailMsg → Option String)
    (to_address subject body : String) :
    ((cfg? = none ∨ pyStripS to_address = "" ∨ '@' ∉ (pyStripS to_address).data) →
      ∃ e, send_email cfg? smtpRun to_address subject body = .error e) ∧
    (∀ b, send_email cfg? smtpRun to_address subject body = .ok b → b = true) := by
  constructor
  · intro h
    cases cfg? with
    | none => exact ⟨_, rfl⟩
    | some cfg =>
      have hbad : pyStripS to_address = "" ∨ '@' ∉ (pyStripS to_address).data := by
        rcases h with h | h | h
        · cases h
        · exact Or.inl h
        · exact Or.inr h
      simp only [send_email]
      rw [if_pos hbad]
      exact ⟨_, rfl⟩
  · intro b hb
    cases cfg? with
    | none => simp [send_email] at hb
    | some cfg =>
      simp only [send_email] at hb
      by_cases hc : pyStripS to_address = "" ∨ '@' ∉ (pyStripS to_address).data
      · rw [if_pos hc] at hb; cases hb
      · rw [if_neg hc] at hb
        split at hb
        · cases hb
        · cases hb
          rfl

/-- C5 witness: `send_email_spec` applied at concrete inputs, both for the
missing-configuration error and for a successful `True` return. -/
theorem send_email_spec_witness :
    (∃ e, send_email none (fun _ => none) "a@b.c" "s" "t" = .error e) ∧
    true = true :=
  ⟨(send_email_spec none (fun _ => none) "a@b.c" "s" "t").1 (Or.inl rfl),
   (send_email_spec (some ⟨"h", 25, none, none, none, true, false⟩)
      (fun _ => none) "a@b.c" "s" "t").2 true (by rfl)⟩

/-- The constant `WEEKLY_EMAIL_SYSTEM_BASE` (src/prompts/weekly.py, lines
20-25), with Python's adjacent string literals concatenated. -/
def WEEKLY_EMAIL_SYSTEM_BASE : String :=
  "You are an assistant that drafts concise, outcome-focused weekly performance emails. " ++
  "Summarize the week's accomplishments, highlight impact, call out metrics if present, " ++
  "and close with next week's priorities. Provide bullet items as plain strings (no leading hyphens, numbering, or Markdown/HTML). " ++
  "Avoid long prose paragraphs. Prefer short, scannable bullets with measurable outcomes when available."

/-- Embedding of `build_system_prompt` (src/prompts/weekly.py, lines 28-34):
`tone = (tone or "professional").strip()` then an f-string around the base. -/
def build_system_prompt (tone : Option String) : String :=
  WEEKLY_EMAIL_SYSTEM_BASE ++ " Keep it " ++ pyStripS (pyOrStr tone "professional") ++
  ", first-person, and under 150 words"

/-- Embedding of `build_user_prompt` (src/prompts/weekly.py, lines 37-62).
`max_bullets` is a Python `int | None` whose truthiness excludes both `None`
and `0`; `recipient_name` is an optional string whose truthiness excludes
both `None` and `""`. -/
def build_user_prompt (user_display_name notes_block : String) (include_subject : Bool)
    (max_bullets : Option Int) (recipient_name : Option String) : String :=
  "Draft my weekly performance email as " ++
  (if user_display_name = "" then "the user" else user_display_name) ++ ".\n" ++
  "Here are my raw notes for the week:\n\n" ++ notes_block ++ "\n\n" ++
  "Provide the 'bullets' as plain strings with no leading hyphens, numbering, or markdown. " ++
  "Keep bullets action/impact-centric.\n" ++
  (match max_bullets with
   | some n => if n = 0 then "" else
      "Limit to at most " ++ toString n ++ " bullets by merging related items.\n"
   | none => "") ++
  (match recipient_name with
   | some r => if r = "" then "" else
      "Address the email to " ++ r ++
      " by name in the opening (we will add the greeting ourselves).\n"
   | none => "") ++
  "Always end the email with a closing line of 'Regards,' followed by the user's full name.\n" ++
  (if include_subject then "Return a subject line (Subject:) and the email body."
   else "Return only the email body.")

/-- Embedding of `weekly_email_messages` (src/prompts/weekly.py, lines
65-83): the pair of system and user messages. -/
def weekly_email_messages (user_display_name notes_block : String) (tone : Option String)
    (include_subject : Bool) (max_bullets : Option Int) (recipient_name : Option String) :
    String × String :=
  (build_system_prompt tone,
   build_user_prompt user_display_name notes_block include_subject max_bullets recipient_name)

set_option maxRecDepth 40000 in
/-- C8 counterexample: as stated the claim fails — a tone with surrounding
whitespace is stripped before insertion, `max_bullets = 0` is "set" but
produces no bullet-limit line (Python falsiness of `0`), and
`recipient_name = ""` is "set" but produces no recipient line. -/
theorem weekly_email_messages_claim_counterexample :
    build_system_prompt (some " friendly ") ≠
      WEEKLY_EMAIL_SYSTEM_BASE ++ " Keep it  friendly , first-person, and under 150 words" ∧
    build_user_prompt "A" "notes" true (some 0) none =
      build_user_prompt "A" "notes" true none none ∧
    build_user_prompt "A" "notes" true none (some "") =
      build_user_prompt "A" "notes" true none none := by
  refine ⟨?_, rfl, rfl⟩
  decide

/-- C8 (amended): `weekly_email_messages` returns the fixed base text
followed by the tone sentence, the tone stripped of surrounding whitespace
and defaulting to `"professional"` when empty or `None`; and a user message
embedding the notes block verbatim, with the bullet-limit line present iff
`max_bullets` is set and nonzero, the recipient line present iff
`recipient_name` is set and non-empty, and a subject line requested iff
`include_subject` is true (src/prompts/weekly.py, lines 28-83). -/
theorem weekly_email_messages_spec (user_display_name notes_block : String)
    (tone : Option String) (include_subject : Bool) (max_bullets : Option Int)
    (recipient_name : Option String) :
    (weekly_email_messages user_display_name notes_block tone include_subject
        max_bullets recipient_name).1 =
      WEEKLY_EMAIL_SYSTEM_BASE ++ " Keep it " ++ pyStripS (pyOrStr tone "professional") ++
        ", first-person, and under 150 words" ∧
    (∃ pre post, (weekly_email_messages user_display_name notes_block tone include_subject
        max_bullets recipient_name).2 = pre ++ notes_block ++ post) ∧
    (weekly_email_messages user_display_name notes_block tone include_subject
        max_bullets recipient_name).2 =
      "Draft my weekly performance email as " ++
      (if user_display_name = "" then "the user" else user_display_name) ++ ".\n" ++
      "Here are my raw notes for the week:\n\n" ++ notes_block ++ "\n\n" ++
      "Provide the 'bullets' as plain strings with no leading hyphens, numbering, or markdown. " ++
      "Keep bullets action/impact-centric.\n" ++
      (match max_bullets with
       | some n => if n = 0 then "" else
          "Limit to at most " ++ toString n ++ " bullets by merging related items.\n"
       | none => "") ++
      (match recipient_name with
       | some r => if r = "" then "" else
          "Address the email to " ++ r ++
          " by name in the opening (we will add the greeting ourselves).\n"
       | none => "") ++
      "Always end the email with a closing line of 'Regards,' followed by the user's full name.\n" ++
      (if include_subject then "Return a subject line (Subject:) and the email body."
       else "Return only the email body.") := by
  refine ⟨rfl, ?_, rfl⟩
  refine ⟨"Draft my weekly performance email as " ++
    (if user_display_name = "" then "the user" else user_display_name) ++ ".\n" ++
    "Here are my raw notes for the week:\n\n", ?_, ?_⟩
  · exact "\n\n" ++
      "Provide the 'bullets' as plain strings with no leading hyphens, numbering, or markdown. " ++
      "Keep bullets action/impact-centric.\n" ++
      (match max_bullets with
       | some n => if n = 0 then "" else
          "Limit to at most " ++ toString n ++ " bullets by merging related items.\n"
       | none => "") ++
      (match recipient_name with
       | some r => if r = "" then "" else
          "Address the email to " ++ r ++
          " by name in the opening (we will add the greeting ourselves).\n"
       | none => "") ++
      "Always end the email with a closing line of 'Regards,' followed by the user's full name.\n" ++
      (if include_subject then "Return a subject line (Subject:) and the email body."
       else "Return only the email body.")
  · simp only [weekly_email_messages, build_user_prompt, String.append_assoc]

/-- Python `datetime.date` value: a civil (year, month, day) triple. -/
structure PyDate where
  year : Int
  month : Int
  day : Int
deriving DecidableEq

/-- Gregorian leap-year rule, as used by `datetime`. -/
def isLeap (y : Int) : Bool := (y.emod 4 == 0 && y.emod 100 != 0) || y.emod 400 == 0

/-- Number of days of a Gregorian month. -/
def daysInMonth (y m : Int) : Int :=
  if m = 2 then (if isLeap y then 29 else 28)
  else if m = 4 ∨ m = 6 ∨ m = 9 ∨ m = 11 then 30 else 31

/-- Days since 1970-01-01 of a civil date (Howard Hinnant's `days_from_civil`
algorithm); Python's `date` ordering and `weekday()` agree with this day
number for valid dates. -/
def toDays (d : PyDate) : Int :=
  let y : Int := if d.month ≤ 2 then d.year - 1 else d.year
  let era : Int := y.fdiv 400
  let yoe : Int := y - era * 400
  let mp : Int := (d.month + 9).emod 12
  let doy : Int := (153 * mp + 2).fdiv 5 + d.day - 1
  let doe : Int := yoe * 365 + yoe.fdiv 4 - yoe.fdiv 100 + doy
  era * 146097 + doe - 719468

/-- Python `date.weekday()`: 0 for Monday through 6 for Sunday
(1970-01-01 was a Thursday, weekday 3). -/
def pyWeekday (d : PyDate) : Int := (toDays d + 3).emod 7

/-- Splitting a character list at each `'-'`, as `s.split("-")` would. -/
def splitOnDash : List Char → List (List Char)
  | [] => [[]]
  | c :: cs =>
    if c = '-' then [] :: splitOnDash cs
    else
      match splitOnDash cs with
      | [] => [[c]]
      | g :: gs => (c :: g) :: gs

/-- Decimal reading of a non-empty all-digit character group. -/
def digitsToNat? (cs : List Char) : Option Nat :=
  if cs = [] then none
  else if cs.all (·.isDigit) then
    some (cs.foldl (fun acc c => acc * 10 + (c.toNat - 48)) 0)
  else none

/-- Model of `datetime.strptime(s, "%Y-%m-%d").date()`: a year group of
exactly 4 digits (CPython compiles `%Y` to `\d\d\d\d`), month and day groups
of 1-2 digits, forming a valid civil date with year at least `MINYEAR = 1`;
`none` when parsing raises `ValueError`.  Digits are ASCII; the exotic
non-ASCII decimal digits that CPython's `\d` also admits are outside the
scope of the spec theorems' hypotheses. -/
def parseYMD (s : String) : Option PyDate :=
  match splitOnDash s.data with
  | [ys, ms, ds] =>
    match digitsToNat? ys, digitsToNat? ms, digitsToNat? ds with
    | some y, some m, some d =>
      if ys.length = 4 ∧ ms.length ≤ 2 ∧ ds.length ≤ 2 ∧
         1 ≤ y ∧ 1 ≤ m ∧ m ≤ 12 ∧ 1 ≤ d ∧ (d : Int) ≤ daysInMonth y m
      then some ⟨y, m, d⟩ else none
    | _, _, _ => none
  | _ => none

/-- Word counter for Python `str.split()` with no arguments: number of
maximal runs of non-whitespace characters. -/
def wordCountAux (prevSpace : Bool) : List Char → Nat
  | [] => 0
  | c :: cs => (if prevSpace && !pyIsSpace c then 1 else 0) + wordCountAux (pyIsSpace c) cs

/-- Number of words of `len(s.split())`. -/
def wordCount (s : String) : Nat := wordCountAux true s.data

/-- Round-half-to-even of `a / b` over naturals (for `b > 0`). -/
def rndNat (a b : ℕ) : ℕ :=
  if 2 * (a % b) < b then a / b
  else if b < 2 * (a % b) then a / b + 1
  else if (a / b) % 2 = 0 then a / b else a / b + 1

/-- Round-half-to-even of `(a / b) · 2^t`. -/
def rndShift (a b : ℕ) (t : ℤ) : ℕ :=
  if 0 ≤ t then rndNat (a * 2 ^ t.toNat) b else rndNat a (b * 2 ^ (-t).toNat)

/-- Floor of `(a / b) · 2^t`. -/
def floorShift (a b : ℕ) (t : ℤ) : ℕ :=
  if 0 ≤ t then (a * 2 ^ t.toNat) / b else a / (b * 2 ^ (-t).toNat)

/-- Fuelled binary logarithm (`Nat.log2` with explicit fuel, so that the
kernel can evaluate it on literals). -/
def log2Fuel : ℕ → ℕ → ℕ
  | 0, _ => 0
  | f + 1, n => if 2 ≤ n then log2Fuel f (n / 2) + 1 else 0

/-- Floor of the binary logarithm of a positive natural. -/
def natLog2 (n : ℕ) : ℕ := log2Fuel n n

/-- The IEEE-754 binary64 value nearest to `a / b` (round half to even, as
CPython's `int.__truediv__` computes it), represented as a pair `(m, t)`
denoting `m · 2^(−t)`: the significand is normalised to 53 bits, or kept at
the fixed scale `2^(−1074)` in the subnormal range.  Quotients at or beyond
the overflow threshold `2^1024` (an astronomical total word count) are out
of scope and excluded by the spec theorem's size hypothesis. -/
def float64Pair (a b : ℕ) : ℕ × ℤ :=
  if a = 0 ∨ b = 0 then (0, 0)
  else
    let t : ℤ := 53 + (natLog2 b : ℤ) - (natLog2 a : ℤ)
    let t' : ℤ := if floorShift a b t < 2 ^ 53 then t else t - 1
    if 1075 ≤ t' then (rndShift a b 1074, 1074) else (rndShift a b t', t')

/-- Exact rational value of an `(m, t)` double representation. -/
def pairVal (p : ℕ × ℤ) : ℚ := (p.1 : ℚ) * (2 : ℚ) ^ (-p.2)

/-- Python `round(x, 1)` of the double `m · 2^(−t)`, as the integer number
of tenths: CPython rounds the double's exact value to the nearest multiple
of `1/10` (a tie, `x·10 ≡ 1/2 mod 1`, would need the non-dyadic denominator
20 and so never occurs for a double). -/
def roundPairTenths (p : ℕ × ℤ) : ℕ :=
  if 0 ≤ p.2 then rndNat (10 * p.1) (2 ^ p.2.toNat)
  else 10 * p.1 * 2 ^ (-p.2).toNat

/-- The double stored by `round(total_words / total_notes, 1)`: the quotient
correctly rounded to binary64, decimally rounded to tenths, and re-rounded
to binary64 (CPython's `double_round` via `_Py_dg_dtoa`/`strtod`). -/
def pyRoundAvgPair (a b : ℕ) : ℕ × ℤ :=
  float64Pair (roundPairTenths (float64Pair a b)) 10

/-- Value of a fetched note's `note_date` field: SQL `NULL`, a string, or a
`date` object. -/
inductive NoteDateVal where
  | noneV
  | str (s : String)
  | date (d : PyDate)
deriving DecidableEq

/-- A note as consumed by `get_note_stats` (pages/2_📊_Analytics.py): its
content, its `note_date` field, and the names of its tags. -/
structure AnalyticsNote where
  content : String
  note_date : NoteDateVal
  tags : List String
deriving DecidableEq

/-- The date-collection loop of `get_note_stats` (pages/2_📊_Analytics.py,
lines 40-47): falsy dates are skipped, strings are parsed with
`strptime(.., "%Y-%m-%d")`, and a parse failure raises, aborting the whole
computation (`none`). -/
def collectDates : List AnalyticsNote → Option (List PyDate)
  | [] => some []
  | n :: ns =>
    match n.note_date with
    | .noneV => collectDates ns
    | .str s =>
      if s = "" then collectDates ns
      else
        match parseYMD s with
        | none => none
        | some d => (collectDates ns).map (d :: ·)
    | .date d => (collectDates ns).map (d :: ·)

/-- The statistics dictionary returned by `get_note_stats`; the
`tag_counts` dict is modelled as its lookup function (absent keys map
to 0). -/
structure NoteStats where
  total_notes : Nat
  tagged_notes : Nat
  untagged_notes : Nat
  this_week : Nat
  this_month : Nat
  tag_counts : String → Nat
  total_words : Nat
  avg_words : ℚ
  dates : List PyDate

/-- Embedding of `get_note_stats` (pages/2_📊_Analytics.py, lines 24-82)
applied to the already-fetched notes: `None` for an empty list or when a date
string fails to parse (the exception path), otherwise the statistics.
`week_start` and `month_start` comparisons are taken on day numbers, which
agree with Python's `date` ordering, and `round(total_words/total_notes, 1)`
is modelled as the binary64 float computation CPython performs
(`pyRoundAvgPair`). -/
def get_note_stats (today : PyDate) (notes : List AnalyticsNote) : Option NoteStats :=
  if notes = [] then none
  else
    match collectDates notes with
    | none => none
    | some dates =>
      let total := notes.length
      let tagged := (notes.filter (fun n => !n.tags.isEmpty)).length
      let total_words := (notes.map (fun n => wordCount n.content)).sum
      some {
        total_notes := total
        tagged_notes := tagged
        untagged_notes := total - tagged
        this_week := (dates.filter (fun d => toDays today - pyWeekday today ≤ toDays d)).length
        this_month := (dates.filter (fun d => toDays ⟨today.year, today.month, 1⟩ ≤ toDays d)).length
        tag_counts := fun name => (notes.map (fun n => n.tags.count name)).sum
        total_words := total_words
        avg_words := if total = 0 then 0 else pairVal (pyRoundAvgPair total_words total)
        dates := dates }

/-- A `note_date` value on which the date-collection loop does not raise:
`NULL`, the empty string, a parseable `%Y-%m-%d` string, or a date object. -/
def dateFieldOK : NoteDateVal → Bool
  | .noneV => true
  | .str s => s == "" || (parseYMD s).isSome
  | .date _ => true

/-- The parsed dates of a notes list, in order. -/
def pyDatesOf (notes : List AnalyticsNote) : List PyDate :=
  notes.flatMap (fun n =>
    match n.note_date with
    | .noneV => []
    | .str s =>
      if s = "" then []
      else
        match parseYMD s with
        | some d => [d]
        | none => []
    | .date d => [d])

theorem collectDates_eq : ∀ (notes : List AnalyticsNote),
    (∀ n ∈ notes, dateFieldOK n.note_date = true) →
    collectDates notes = some (pyDatesOf notes) := by
  intro notes
  induction notes with
  | nil => intro _; rfl
  | cons n ns ih =>
    intro h
    have hn := h n (by simp)
    have hns := ih (fun m hm => h m (by simp [hm]))
    cases hd : n.note_date with
    | noneV => simp [collectDates, pyDatesOf, hd, hns, List.flatMap_cons]
    | str s =>
      rw [hd] at hn
      by_cases hs : s = ""
      · simp [collectDates, pyDatesOf, hd, hs, hns, List.flatMap_cons]
      · have : (parseYMD s).isSome := by
          simp [dateFieldOK, hs] at hn
          exact hn
        obtain ⟨d, hdq⟩ := Option.isSome_iff_exists.mp this
        simp [collectDates, pyDatesOf, hd, hs, hdq, hns, List.flatMap_cons]
    | date d => simp [collectDates, pyDatesOf, hd, hns, List.flatMap_cons]

theorem sum_count_tags (name : String) : ∀ (notes : List AnalyticsNote),
    (∀ n ∈ notes, n.tags.Nodup) →
    (notes.map fun n => n.tags.count name).sum =
      (notes.filter fun n => name ∈ n.tags).length := by
  intro notes
  induction notes with
  | nil => intro _; rfl
  | cons n ns ih =>
    intro h
    have hn := h n (by simp)
    have hns := ih (fun m hm => h m (by simp [hm]))
    by_cases hmem : name ∈ n.tags
    · have hc : n.tags.count name = 1 := List.count_eq_one_of_mem hn hmem
      simp [List.filter_cons, hmem, hc, hns]
      omega
    · have hc : n.tags.count name = 0 := List.count_eq_zero_of_not_mem hmem
      simp [List.filter_cons, hmem, hc, hns]

/-- C6 counterexample: `avg_words` is `round(total_words / total_notes, 1)`,
not the exact quotient — three notes with four words in total give
`avg_words = ` the double `1.3` (the binary64 value
`5854679515581645 · 2^(−52)`), while the claimed quotient is `4/3`. -/
theorem get_note_stats_claim_counterexample :
    (get_note_stats ⟨2025, 6, 16⟩
        [⟨"a b", .noneV, []⟩, ⟨"c", .noneV, []⟩, ⟨"d", .noneV, []⟩]).map
      NoteStats.avg_words = some (pairVal (5854679515581645, 52)) ∧
    (get_note_stats ⟨2025, 6, 16⟩
        [⟨"a b", .noneV, []⟩, ⟨"c", .noneV, []⟩, ⟨"d", .noneV, []⟩]).map
      NoteStats.total_words = some 4 ∧
    (get_note_stats ⟨2025, 6, 16⟩
        [⟨"a b", .noneV, []⟩, ⟨"c", .noneV, []⟩, ⟨"d", .noneV, []⟩]).map
      NoteStats.total_notes = some 3 ∧
    pairVal (5854679515581645, 52) ≠ (4 : ℚ) / 3 := by
  have hp : pyRoundAvgPair 4 3 = (5854679515581645, 52) := by decide
  refine ⟨?_, rfl, rfl, ?_⟩
  · show some (if (3 : Nat) = 0 then (0 : ℚ) else pairVal (pyRoundAvgPair 4 3)) =
      some (pairVal (5854679515581645, 52))
    rw [if_neg (by norm_num), hp]
  · unfold pairVal
    norm_num

/-- C6 (amended): for a non-empty list of fetched notes whose dates parse and
whose per-note tag names are distinct, `get_note_stats` returns statistics
with `tagged + untagged = total`, `tag_counts` mapping each tag name to the
number of notes carrying it, `this_week`/`this_month` counting parsed dates
on or after the Monday of the current week resp. the first of the month, and
`avg_words` equal to the total word count divided by `total_notes`, rounded
to one decimal place in double precision exactly as Python's `round`
computes it; for an empty list it returns `None`.  The size hypothesis
`hwords` keeps the quotient below the binary64 overflow threshold
(pages/2_📊_Analytics.py, lines 24-82). -/
theorem get_note_stats_spec (today : PyDate) (notes : List AnalyticsNote)
    (hne : notes ≠ [])
    (hdates : ∀ n ∈ notes, dateFieldOK n.note_date = true)
    (htags : ∀ n ∈ notes, n.tags.Nodup)
    (hwords : (notes.map (fun n => wordCount n.content)).sum < 2 ^ 1023) :
    (∃ s, get_note_stats today notes = some s ∧
      s.total_notes = notes.length ∧
      s.tagged_notes + s.untagged_notes = s.total_notes ∧
      s.tagged_notes = (notes.filter (fun n => !n.tags.isEmpty)).length ∧
      (∀ name, s.tag_counts name = (notes.filter (fun n => name ∈ n.tags)).length) ∧
      s.dates = pyDatesOf notes ∧
      s.this_week = ((pyDatesOf notes).filter
        (fun d => toDays today - pyWeekday today ≤ toDays d)).length ∧
      s.this_month = ((pyDatesOf notes).filter
        (fun d => toDays ⟨today.year, today.month, 1⟩ ≤ toDays d)).length ∧
      s.total_words = (notes.map (fun n => wordCount n.content)).sum ∧
      s.avg_words = pairVal (pyRoundAvgPair s.total_words s.total_notes)) ∧
    get_note_stats today ([] : List AnalyticsNote) = none := by
  constructor
  · have hcd := collectDates_eq notes hdates
    have hform : get_note_stats today notes = some {
        total_notes := notes.length
        tagged_notes := (notes.filter (fun n => !n.tags.isEmpty)).length
        untagged_notes := notes.length - (notes.filter (fun n => !n.tags.isEmpty)).length
        this_week := ((pyDatesOf notes).filter
          (fun d => toDays today - pyWeekday today ≤ toDays d)).length
        this_month := ((pyDatesOf notes).filter
          (fun d => toDays ⟨today.year, today.month, 1⟩ ≤ toDays d)).length
        tag_counts := fun name => (notes.map (fun n => n.tags.count name)).sum
        total_words := (notes.map (fun n => wordCount n.content)).sum
        avg_words := if notes.length = 0 then 0 else
          pairVal (pyRoundAvgPair ((notes.map (fun n => wordCount n.content)).sum)
            notes.length)
        dates := pyDatesOf notes } := by
      unfold get_note_stats
      rw [if_neg hne, hcd]
    have htag_le : (notes.filter (fun n => !n.tags.isEmpty)).length ≤ notes.length :=
      List.length_filter_le _ _
    have hlen : notes.length ≠ 0 := by
      intro h0
      exact hne (List.length_eq_zero.mp h0)
    refine ⟨_, hform, rfl, ?_, rfl, ?_, rfl, rfl, rfl, rfl, ?_⟩
    · show (notes.filter (fun n => !n.tags.isEmpty)).length +
        (notes.length - (notes.filter (fun n => !n.tags.isEmpty)).length) = notes.length
      omega
    · intro name
      exact sum_count_tags name notes htags
    · show (if notes.length = 0 then 0 else
          pairVal (pyRoundAvgPair ((notes.map (fun n => wordCount n.content)).sum)
            notes.length)) =
        pairVal (pyRoundAvgPair ((notes.map (fun n => wordCount n.content)).sum)
          notes.length)
      rw [if_neg hlen]
  · rfl

set_option maxRecDepth 8000 in
/-- C6 witness: `get_note_stats_spec` applied at a concrete input. -/
theorem get_note_stats_spec_witness :
    ([⟨"hello world", .str "2025-06-10", ["A"]⟩] : List AnalyticsNote) ≠ [] ∧
    (∃ s, get_note_stats ⟨2025, 6, 16⟩
        [⟨"hello world", .str "2025-06-10", ["A"]⟩] = some s ∧
      s.total_notes = 1 ∧ s.tagged_notes + s.untagged_notes = s.total_notes) := by
  refine ⟨by simp, ?_⟩
  obtain ⟨s, hs, h1, h2, -⟩ :=
    (get_note_stats_spec ⟨2025, 6, 16⟩ [⟨"hello world", .str "2025-06-10", ["A"]⟩]
      (by simp) (by decide) (by decide) (by decide)).1
  exact ⟨s, hs, h1, h2⟩

/-- Value of a fetched note's `created_at` field as seen by
`_format_notes_for_prompt`: a string, a `datetime` object (abstract type
`δ`), or anything else (e.g. `None`). -/
inductive CreatedAtVal (δ : Type) where
  | str (s : String)
  | dt (d : δ)
  | noneV

/-- A note as consumed by `_format_notes_for_prompt`
(src/integrations/xai_client.py). -/
structure PromptNote (δ : Type) where
  content : String
  created_at : CreatedAtVal δ

/-- The timestamp computation of `_format_notes_for_prompt`'s loop body
(src/integrations/xai_client.py, lines 92-102): `datetime.fromisoformat` is
abstracted as `parseIso` (`none` when it raises) and `strftime("%a %m/%d
%H:%M")` as `strftime`; any non-string non-datetime value yields no
timestamp. -/
def tsOf {δ : Type} (parseIso : String → Option δ) (strftime : δ → String) :
    CreatedAtVal δ → Option String
  | .str s => (parseIso s).map strftime
  | .dt d => some (strftime d)
  | .noneV => none

/-- The snippet computation: stripped content, truncated to 397 characters
plus `"..."` when longer than 400 (src/integrations/xai_client.py,
line 105). -/
def snippetOf (content : String) : String :=
  if (pyStripS content).length ≤ 400 then pyStripS content
  else (⟨(pyStripS content).data.take 397⟩ : String) ++ "..."

/-- One line of `_format_notes_for_prompt`'s output: the bullet prefix uses
the timestamp only when it is truthy (src/integrations/xai_client.py,
line 103). -/
def lineOf {δ : Type} (parseIso : String → Option δ) (strftime : δ → String)
    (n : PromptNote δ) : String :=
  match tsOf parseIso strftime n.created_at with
  | some t => if t = "" then "- " ++ snippetOf n.content
              else "- [" ++ t ++ "] " ++ snippetOf n.content
  | none => "- " ++ snippetOf n.content

/-- Embedding of `_format_notes_for_prompt` (src/integrations/xai_client.py,
lines 86-107): one line per note joined by newlines, or the placeholder line
for an empty list. -/
def format_notes_for_prompt {δ : Type} (parseIso : String → Option δ)
    (strftime : δ → String) (notes : List (PromptNote δ)) : String :=
  if notes.map (lineOf parseIso strftime) = [] then "- (No notes logged this week)"
  else String.intercalate "\n" (notes.map (lineOf parseIso strftime))

/-- C7 counterexample: for the empty notes list the code emits the single
placeholder bullet `"- (No notes logged this week)"`, not zero bullet lines
as "exactly one bullet line per note" would require. -/
theorem format_notes_claim_counterexample :
    format_notes_for_prompt (fun _ : String => (none : Option Unit)) (fun _ => "x")
      ([] : List (PromptNote Unit)) = "- (No notes logged this week)" ∧
    ([] : List (PromptNote Unit)).length = 0 ∧
    ("- (No notes logged this week)" : String) ≠ "" := by
  refine ⟨rfl, rfl, by decide⟩

/-- C7 (amended): for a non-empty notes list, `_format_notes_for_prompt`
emits exactly one bullet line per note — prefixed with the formatted
timestamp when `created_at` is a parseable ISO string or a datetime object,
and a bare bullet when parsing fails or the value is neither — and never
raises (all exception paths are total `Option` branches); for the empty list
it emits the single placeholder line.  `get_note_stats` likewise accepts
each `note_date` as a `%Y-%m-%d` string or a date object and produces
statistics whose dates are the parsed ones
(src/integrations/xai_client.py, lines 86-107 and
pages/2_📊_Analytics.py, lines 39-47). -/
theorem format_notes_for_prompt_spec {δ : Type} (parseIso : String → Option δ)
    (strftime : δ → String) (hfmt : ∀ d, strftime d ≠ "")
    (notes : List (PromptNote δ)) (hne : notes ≠ []) :
    format_notes_for_prompt parseIso strftime notes =
      String.intercalate "\n" (notes.map (lineOf parseIso strftime)) ∧
    (notes.map (lineOf parseIso strftime)).length = notes.length ∧
    (∀ n : PromptNote δ, ∀ s d, n.created_at = .str s → parseIso s = some d →
      lineOf parseIso strftime n = "- [" ++ strftime d ++ "] " ++ snippetOf n.content) ∧
    (∀ n : PromptNote δ, ∀ s, n.created_at = .str s → parseIso s = none →
      lineOf parseIso strftime n = "- " ++ snippetOf n.content) ∧
    (∀ n : PromptNote δ, ∀ d, n.created_at = .dt d →
      lineOf parseIso strftime n = "- [" ++ strftime d ++ "] " ++ snippetOf n.content) ∧
    (∀ n : PromptNote δ, n.created_at = .noneV →
      lineOf parseIso strftime n = "- " ++ snippetOf n.content) ∧
    (∀ (today : PyDate) (anotes : List AnalyticsNote), anotes ≠ [] →
      (∀ n ∈ anotes, dateFieldOK n.note_date = true) →
      ∃ s, get_note_stats today anotes = some s ∧ s.dates = pyDatesOf anotes) := by
  refine ⟨?_, by simp, ?_, ?_, ?_, ?_, ?_⟩
  · unfold format_notes_for_prompt
    rw [if_neg (by simp [hne])]
  · intro n s d hcat hp
    simp [lineOf, tsOf, hcat, hp, hfmt d]
  · intro n s hcat hp
    simp [lineOf, tsOf, hcat, hp]
  · intro n d hcat
    simp [lineOf, tsOf, hcat, hfmt d]
  · intro n hcat
    simp [lineOf, tsOf, hcat]
  · intro today anotes hne2 hok
    have hcd := collectDates_eq anotes hok
    have hform : get_note_stats today anotes = some {
        total_notes := anotes.length
        tagged_notes := (anotes.filter (fun n => !n.tags.isEmpty)).length
        untagged_notes := anotes.length - (anotes.filter (fun n => !n.tags.isEmpty)).length
        this_week := ((pyDatesOf anotes).filter
          (fun d => toDays today - pyWeekday today ≤ toDays d)).length
        this_month := ((pyDatesOf anotes).filter
          (fun d => toDays ⟨today.year, today.month, 1⟩ ≤ toDays d)).length
        tag_counts := fun name => (anotes.map (fun n => n.tags.count name)).sum
        total_words := (anotes.map (fun n => wordCount n.content)).sum
        avg_words := if anotes.length = 0 then 0 else
          pairVal (pyRoundAvgPair ((anotes.map (fun n => wordCount n.content)).sum)
            anotes.length)
        dates := pyDatesOf anotes } := by
      unfold get_note_stats
      rw [if_neg hne2, hcd]
    exact ⟨_, hform, rfl⟩

/-- C7 witness: `format_notes_for_prompt_spec` applied at a concrete input. -/
theorem format_notes_for_prompt_spec_witness :
    (∀ d : Unit, (fun _ : Unit => "TS") d ≠ "") ∧
    ([(⟨"hello", .str "iso"⟩ : PromptNote Unit)] ≠ []) ∧
    format_notes_for_prompt (fun s : String => if s = "iso" then some () else none)
        (fun _ : Unit => "TS") [(⟨"hello", .str "iso"⟩ : PromptNote Unit)] =
      String.intercalate "\n"
        ([(⟨"hello", .str "iso"⟩ : PromptNote Unit)].map
          (lineOf (fun s : String => if s = "iso" then some () else none)
            (fun _ : Unit => "TS"))) :=
  ⟨by intro d; simp, by simp,
   (format_notes_for_prompt_spec (fun s : String => if s = "iso" then some () else none)
      (fun _ : Unit => "TS") (by intro d; simp)
      [(⟨"hello", .str "iso"⟩ : PromptNote Unit)] (by simp)).1⟩

/-- Row of the `notes` table.  `note_date` and `created_at` are day numbers
resp. timestamps on an integer scale whose day 0 is a Monday, so that
`weekday = d % 7` models Python's `date.weekday()`. -/
structure NoteRow where
  id : Nat
  user_id : Nat
  content : String
  note_date : Int
  created_at : Int
deriving DecidableEq

/-- Row of the `tags` table. -/
structure TagRow where
  id : Nat
  user_id : Nat
  name : String
  color : String
deriving DecidableEq

/-- Row of the `note_tags` association table. -/
structure NoteTagRow where
  note_id : Nat
  tag_id : Nat
deriving DecidableEq

/-- The three tables used by the notes queries
(src/components/database.py, `create_tables`). -/
structure DB where
  notes : List NoteRow
  note_tags : List NoteTagRow
  tags : List TagRow

/-- A row of the `SELECT n.id, n.content, n.note_date, n.created_at,
t.id  AS tag_id, t.name AS tag_name, t.color AS tag_color` LEFT JOIN output;
tag columns are `NULL` (`none`) when the note has no tag association or the
association is dangling. -/
structure JoinRow where
  id : Nat
  content : String
  note_date : Int
  created_at : Int
  tag_id : Option Nat
  tag_name : Option String
  tag_color : Option String
deriving DecidableEq

/-- The LEFT JOIN rows contributed by one note: one all-`NULL`-tags row when
the note has no `note_tags` association, otherwise one row per association
(joined against `tags` on `nt.tag_id = t.id`). -/
def joinNote (db : DB) (n : NoteRow) : List JoinRow :=
  match db.note_tags.filter (fun nt => nt.note_id == n.id) with
  | [] => [⟨n.id, n.content, n.note_date, n.created_at, none, none, none⟩]
  | nt :: nts => (nt :: nts).map (fun assoc =>
      match db.tags.find? (fun t => t.id == assoc.tag_id) with
      | some t => ⟨n.id, n.content, n.note_date, n.created_at,
                   some t.id, some t.name, some t.color⟩
      | none => ⟨n.id, n.content, n.note_date, n.created_at, none, none, none⟩)

/-- Comparison `ORDER BY n.note_date DESC, n.created_at DESC`. -/
def rowKeyLE (a b : JoinRow) : Bool :=
  decide (b.note_date < a.note_date) ||
  (decide (a.note_date = b.note_date) && decide (b.created_at ≤ a.created_at))

/-- Monday of the current week: `today - timedelta(days=today.weekday())`
(src/components/database.py, lines 441-445). -/
def weekStart (today : Int) : Int := today - today.emod 7

/-- The SQL part of `get_weekly_notes` (src/components/database.py, lines
451-460): rows of the LEFT JOIN whose note satisfies `user_id = %s AND
note_date BETWEEN week_start AND week_end`, ordered by `note_date DESC,
created_at DESC` (the WHERE clause mentions only note columns, so it is
applied to the notes before joining). -/
def weeklyRows (db : DB) (today : Int) (user_id : Nat) : List JoinRow :=
  ((db.notes.filter (fun n => n.user_id == user_id &&
      decide (weekStart today ≤ n.note_date) &&
      decide (n.note_date ≤ weekStart today + 6))).flatMap
    (joinNote db)).mergeSort rowKeyLE

/-- One entry of a grouped note's `tags` list. -/
structure TagOut where
  id : Nat
  name : Option String
  color : Option String
deriving DecidableEq

/-- One grouped note as produced by the application-level grouping loop. -/
structure NoteOut where
  id : Nat
  content : String
  note_date : Int
  created_at : Int
  tags : List TagOut
deriving DecidableEq

/-- Python truthiness of the `tag_id` column (`if row['tag_id']:`): `NULL`
and `0` are falsy. -/
def truthyTag : Option Nat → Bool
  | none => false
  | some t => t != 0

/-- The fresh dict entry created for a note id's first row. -/
def initNote (r : JoinRow) : NoteOut := ⟨r.id, r.content, r.note_date, r.created_at, []⟩

/-- The tag dict appended for a row with truthy `tag_id`. -/
def tagOut (r : JoinRow) : TagOut := ⟨r.tag_id.getD 0, r.tag_name, r.tag_color⟩

/-- Appending `tagOut r` to the tags of the entry keyed by `r.id` (the
insertion-ordered dict is modelled as a list with unique ids). -/
def addTag (acc : List NoteOut) (r : JoinRow) : List NoteOut :=
  acc.map (fun o => if o.id == r.id then { o with tags := o.tags ++ [tagOut r] } else o)

/-- One iteration of the grouping loop (src/components/database.py, lines
464-481): create the entry if the note id is new, then append the tag when
`tag_id` is truthy. -/
def groupStep (acc : List NoteOut) (r : JoinRow) : List NoteOut :=
  if truthyTag r.tag_id then
    addTag (if r.id ∈ acc.map NoteOut.id then acc else acc ++ [initNote r]) r
  else
    (if r.id ∈ acc.map NoteOut.id then acc else acc ++ [initNote r])

/-- The grouping loop over all rows, returning `list(notes_dict.values())`
in insertion order. -/
def groupRows (rows : List JoinRow) : List NoteOut := rows.foldl groupStep []

/-- Embedding of `DatabaseManager.get_weekly_notes`
(src/components/database.py, lines 439-489). -/
def get_weekly_notes (db : DB) (today : Int) (user_id : Nat) : List NoteOut :=
  groupRows (weeklyRows db today user_id)

/-- Embedding of `DatabaseManager.get_all_notes_for_user`
(src/components/database.py, lines 570-614): same join, ordering and
grouping, restricted to the user's notes with a row `LIMIT`. -/
def get_all_notes_for_user (db : DB) (user_id : Nat) (limit : Nat) : List NoteOut :=
  groupRows ((((db.notes.filter (fun n => n.user_id == user_id)).flatMap
    (joinNote db)).mergeSort rowKeyLE).take limit)

/-- The non-tags fields of a join row. -/
def projRow (r : JoinRow) : Nat × String × Int × Int :=
  (r.id, r.content, r.note_date, r.created_at)

/-- The non-tags fields of a grouped note. -/
def projOut (o : NoteOut) : Nat × String × Int × Int :=
  (o.id, o.content, o.note_date, o.created_at)

/-- The subsequence of rows carrying the first occurrence of each note id not
already in `seen`. -/
def firstOccs (seen : List Nat) : List JoinRow → List JoinRow
  | [] => []
  | r :: rs =>
    if r.id ∈ seen then firstOccs seen rs
    else r :: firstOccs (seen ++ [r.id]) rs

theorem addTag_map_projOut (acc : List NoteOut) (r : JoinRow) :
    (addTag acc r).map projOut = acc.map projOut := by
  unfold addTag
  rw [List.map_map]
  refine List.map_congr_left ?_
  intro o _
  by_cases h : o.id == r.id
  · simp [Function.comp, h, projOut]
  · simp [Function.comp, h]

theorem addTag_map_id (acc : List NoteOut) (r : JoinRow) :
    (addTag acc r).map NoteOut.id = acc.map NoteOut.id := by
  unfold addTag
  rw [List.map_map]
  refine List.map_congr_left ?_
  intro o _
  by_cases h : o.id == r.id
  · simp [Function.comp, h]
  · simp [Function.comp, h]

theorem projOut_initNote (r : JoinRow) : projOut (initNote r) = projRow r := rfl

theorem groupStep_map_projOut (acc : List NoteOut) (r : JoinRow) :
    (groupStep acc r).map projOut =
      if r.id ∈ acc.map NoteOut.id then acc.map projOut
      else acc.map projOut ++ [projRow r] := by
  unfold groupStep
  by_cases hmem : r.id ∈ acc.map NoteOut.id
  · cases htr : truthyTag r.tag_id
    · simp [hmem, htr]
    · simp [hmem, htr, addTag_map_projOut]
  · cases htr : truthyTag r.tag_id
    · simp [hmem, htr, projOut_initNote]
    · simp [hmem, htr, addTag_map_projOut, projOut_initNote]

theorem groupStep_map_id (acc : List NoteOut) (r : JoinRow) :
    (groupStep acc r).map NoteOut.id =
      if r.id ∈ acc.map NoteOut.id then acc.map NoteOut.id
      else acc.map NoteOut.id ++ [r.id] := by
  unfold groupStep
  by_cases hmem : r.id ∈ acc.map NoteOut.id
  · cases htr : truthyTag r.tag_id
    · simp [hmem, htr]
    · simp [hmem, htr, addTag_map_id]
  · cases htr : truthyTag r.tag_id
    · simp [hmem, htr, initNote]
    · simp [hmem, htr, addTag_map_id, initNote]

theorem foldl_groupStep_map_projOut : ∀ (rows : List JoinRow) (acc : List NoteOut),
    (rows.foldl groupStep acc).map projOut =
      acc.map projOut ++ (firstOccs (acc.map NoteOut.id) rows).map projRow := by
  intro rows
  induction rows with
  | nil => intro acc; simp [firstOccs]
  | cons r rs ih =>
    intro acc
    rw [List.foldl_cons, ih (groupStep acc r), groupStep_map_projOut, groupStep_map_id]
    by_cases hmem : r.id ∈ acc.map NoteOut.id
    · rw [if_pos hmem, if_pos hmem]
      simp [firstOccs, hmem]
    · rw [if_neg hmem, if_neg hmem]
      simp [firstOccs, hmem, List.append_assoc]

theorem foldl_groupStep_map_id : ∀ (rows : List JoinRow) (acc : List NoteOut),
    (rows.foldl groupStep acc).map NoteOut.id =
      acc.map NoteOut.id ++ (firstOccs (acc.map NoteOut.id) rows).map JoinRow.id := by
  intro rows
  induction rows with
  | nil => intro acc; simp [firstOccs]
  | cons r rs ih =>
    intro acc
    rw [List.foldl_cons, ih (groupStep acc r), groupStep_map_id]
    by_cases hmem : r.id ∈ acc.map NoteOut.id
    · rw [if_pos hmem]
      simp [firstOccs, hmem]
    · rw [if_neg hmem]
      simp [firstOccs, hmem, List.append_assoc]

theorem groupRows_map_projOut (rows : List JoinRow) :
    (groupRows rows).map projOut = (firstOccs [] rows).map projRow := by
  have := foldl_groupStep_map_projOut rows []
  simpa [groupRows] using this

theorem groupRows_map_id (rows : List JoinRow) :
    (groupRows rows).map NoteOut.id = (firstOccs [] rows).map JoinRow.id := by
  have := foldl_groupStep_map_id rows []
  simpa [groupRows] using this

theorem firstOccs_sublist : ∀ (rows : List JoinRow) (seen : List Nat),
    (firstOccs seen rows).Sublist rows := by
  intro rows
  induction rows with
  | nil => intro seen; simp [firstOccs]
  | cons r rs ih =>
    intro seen
    by_cases h : r.id ∈ seen
    · simp only [firstOccs, if_pos h]
      exact (ih seen).cons r
    · simp only [firstOccs, if_neg h]
      exact (ih (seen ++ [r.id])).cons₂ r

theorem firstOccs_ids_fresh : ∀ (rows : List JoinRow) (seen : List Nat),
    ((firstOccs seen rows).map JoinRow.id).Nodup ∧
    ∀ i ∈ (firstOccs seen rows).map JoinRow.id, i ∉ seen := by
  intro rows
  induction rows with
  | nil => intro seen; simp [firstOccs]
  | cons r rs ih =>
    intro seen
    by_cases h : r.id ∈ seen
    · simpa only [firstOccs, if_pos h] using ih seen
    · obtain ⟨hnd, hfresh⟩ := ih (seen ++ [r.id])
      refine ⟨?_, ?_⟩
      · simp only [firstOccs, if_neg h, List.map_cons, List.nodup_cons]
        refine ⟨?_, hnd⟩
        intro hcontra
        have := hfresh _ hcontra
        simp at this
      · intro i hi
        simp only [firstOccs, if_neg h, List.map_cons, List.mem_cons] at hi
        rcases hi with rfl | hi
        · exact h
        · have := hfresh i hi
          simp only [List.mem_append, List.mem_singleton] at this
          exact fun hc => this (Or.inl hc)

theorem firstOccs_mem_ids : ∀ (rows : List JoinRow) (seen : List Nat) (i : Nat),
    i ∈ (firstOccs seen rows).map JoinRow.id ↔
      (i ∉ seen ∧ i ∈ rows.map JoinRow.id) := by
  intro rows
  induction rows with
  | nil => intro seen i; simp [firstOccs]
  | cons r rs ih =>
    intro seen i
    by_cases h : r.id ∈ seen
    · rw [show firstOccs seen (r :: rs) = firstOccs seen rs from by
        simp only [firstOccs, if_pos h]]
      rw [ih]
      simp only [List.map_cons, List.mem_cons]
      constructor
      · rintro ⟨hns, hmem⟩
        exact ⟨hns, Or.inr hmem⟩
      · rintro ⟨hns, (rfl | hmem)⟩
        · exact absurd h hns
        · exact ⟨hns, hmem⟩
    · rw [show firstOccs seen (r :: rs) = r :: firstOccs (seen ++ [r.id]) rs from by
        simp only [firstOccs, if_neg h]]
      simp only [List.map_cons, List.mem_cons]
      rw [ih]
      constructor
      · rintro (rfl | ⟨hns, hmem⟩)
        · exact ⟨h, Or.inl rfl⟩
        · refine ⟨?_, Or.inr hmem⟩
          intro hcon
          exact hns (by simp [hcon])
      · rintro ⟨hns, (rfl | hmem)⟩
        · exact Or.inl rfl
        · by_cases hir : i = r.id
          · exact Or.inl hir
          · refine Or.inr ⟨?_, hmem⟩
            simp [hns, hir]

theorem firstOccs_find? : ∀ (rows : List JoinRow) (seen : List Nat) (r' : JoinRow),
    r' ∈ firstOccs seen rows →
    rows.find? (fun row => row.id == r'.id) = some r' := by
  intro rows
  induction rows with
  | nil => intro seen r' h; simp [firstOccs] at h
  | cons r rs ih =>
    intro seen r' h
    by_cases hm : r.id ∈ seen
    · simp only [firstOccs, if_pos hm] at h
      have hfresh := (firstOccs_ids_fresh rs seen).2 r'.id (List.mem_map_of_mem _ h)
      have hne : ¬ ((fun row => row.id == r'.id) r = true) := by
        simp only [beq_iff_eq]
        intro he
        exact hfresh (he ▸ hm)
      rw [@List.find?_cons_of_neg _ (fun row => row.id == r'.id) r rs hne]
      exact ih seen r' h
    · simp only [firstOccs, if_neg hm] at h
      rcases List.mem_cons.mp h with rfl | h
      · rw [@List.find?_cons_of_pos _ (fun row => row.id == r'.id) r' rs (by simp)]
      · have hfresh := (firstOccs_ids_fresh rs (seen ++ [r.id])).2 r'.id (List.mem_map_of_mem _ h)
        have hne : ¬ ((fun row => row.id == r'.id) r = true) := by
          simp only [beq_iff_eq]
          intro he
          exact hfresh (by simp [he])
        rw [@List.find?_cons_of_neg _ (fun row => row.id == r'.id) r rs hne]
        exact ih _ r' h

theorem groupStep_mem (acc : List NoteOut) (r : JoinRow) (o' : NoteOut)
    (h : o' ∈ groupStep acc r) :
    (∃ o ∈ acc, o'.id = o.id ∧
      o'.tags = o.tags ++
        (if r.id = o.id ∧ truthyTag r.tag_id = true then [tagOut r] else [])) ∨
    (r.id ∉ acc.map NoteOut.id ∧ o'.id = r.id ∧
      o'.tags = (if truthyTag r.tag_id = true then [tagOut r] else [])) := by
  unfold groupStep at h
  by_cases hmem : r.id ∈ acc.map NoteOut.id
  · cases htr : truthyTag r.tag_id with
    | false =>
      simp only [htr, Bool.false_eq_true, if_false, if_pos hmem] at h
      left
      refine ⟨o', h, rfl, ?_⟩
      simp [htr]
    | true =>
      simp only [htr, if_true, if_pos hmem] at h
      unfold addTag at h
      obtain ⟨o, ho, rfl⟩ := List.mem_map.mp h
      left
      by_cases hid : (o.id == r.id) = true
      · have hre : r.id = o.id := by
          have := (beq_iff_eq).mp hid
          exact this.symm
        refine ⟨o, ho, ?_, ?_⟩
        · simp [hid]
        · simp [hid, hre, htr]
      · have hre : ¬ (r.id = o.id) := by
          intro he
          exact hid (beq_iff_eq.mpr he.symm)
        refine ⟨o, ho, ?_, ?_⟩
        · simp [hid]
        · simp [hid, hre]
  · cases htr : truthyTag r.tag_id with
    | false =>
      simp only [htr, Bool.false_eq_true, if_false, if_neg hmem] at h
      rcases List.mem_append.mp h with ho | ho
      · left
        refine ⟨o', ho, rfl, ?_⟩
        simp [htr]
      · right
        have heq : o' = initNote r := by simpa using ho
        subst heq
        exact ⟨hmem, rfl, by simp [htr, initNote]⟩
    | true =>
      simp only [htr, if_true, if_neg hmem] at h
      unfold addTag at h
      obtain ⟨o, ho, rfl⟩ := List.mem_map.mp h
      rcases List.mem_append.mp ho with hoa | hob
      · have hid : ¬ (o.id == r.id) = true := by
          intro hbe
          refine hmem ?_
          have : o.id = r.id := beq_iff_eq.mp hbe
          exact this ▸ List.mem_map_of_mem _ hoa
        have hre : ¬ (r.id = o.id) := fun he => hid (beq_iff_eq.mpr he.symm)
        left
        refine ⟨o, hoa, ?_, ?_⟩
        · simp [hid]
        · simp [hid, hre]
      · have heq : o = initNote r := by simpa using hob
        subst heq
        right
        refine ⟨hmem, ?_, ?_⟩
        · simp [initNote]
        · simp [initNote, htr, tagOut]

theorem foldl_groupStep_tags : ∀ (rows : List JoinRow) (acc : List NoteOut) (o : NoteOut),
    o ∈ rows.foldl groupStep acc →
    (∃ o0 ∈ acc, o.id = o0.id ∧
      o.tags = o0.tags ++
        (rows.filter (fun row => row.id == o.id && truthyTag row.tag_id)).map tagOut) ∨
    (o.id ∉ acc.map NoteOut.id ∧
      o.tags = (rows.filter (fun row => row.id == o.id && truthyTag row.tag_id)).map tagOut) := by
  intro rows
  induction rows with
  | nil =>
    intro acc o h
    left
    exact ⟨o, h, rfl, by simp⟩
  | cons r rs ih =>
    intro acc o h
    rw [List.foldl_cons] at h
    rcases ih (groupStep acc r) o h with ⟨o0', ho0', hid, htags⟩ | ⟨hnid, htags⟩
    · rcases groupStep_mem acc r o0' ho0' with ⟨o0, ho0, hid2, htags2⟩ | ⟨hrnot, hid2, htags2⟩
      · left
        have hoo : o.id = o0.id := hid.trans hid2
        refine ⟨o0, ho0, hoo, ?_⟩
        rw [htags, htags2, List.filter_cons]
        by_cases hp : (r.id == o.id && truthyTag r.tag_id) = true
        · have hcond : r.id = o0.id ∧ truthyTag r.tag_id = true := by
            have h1 := (Bool.and_eq_true _ _).mp hp
            exact ⟨(beq_iff_eq.mp h1.1).trans hoo, h1.2⟩
          rw [if_pos hp, if_pos hcond]
          simp [List.append_assoc]
        · have hcond : ¬ (r.id = o0.id ∧ truthyTag r.tag_id = true) := by
            rintro ⟨he, ht⟩
            exact hp ((Bool.and_eq_true _ _).mpr ⟨beq_iff_eq.mpr (he.trans hoo.symm), ht⟩)
          rw [if_neg hp, if_neg hcond]
          simp
      · right
        have hor : o.id = r.id := hid.trans hid2
        refine ⟨hor ▸ hrnot, ?_⟩
        rw [htags, htags2, List.filter_cons]
        have hro : (r.id == o.id) = true := beq_iff_eq.mpr hor.symm
        cases htr2 : truthyTag r.tag_id with
        | false => simp [hro]
        | true => simp [hro]
    · right
      rw [groupStep_map_id] at hnid
      have hsup : o.id ∉ acc.map NoteOut.id ∧ o.id ≠ r.id := by
        by_cases hmem : r.id ∈ acc.map NoteOut.id
        · rw [if_pos hmem] at hnid
          exact ⟨hnid, fun he => hnid (he ▸ hmem)⟩
        · rw [if_neg hmem] at hnid
          simp only [List.mem_append, List.mem_singleton] at hnid
          push_neg at hnid
          exact hnid
      refine ⟨hsup.1, ?_⟩
      rw [htags, List.filter_cons]
      have hro : ¬ ((r.id == o.id && truthyTag r.tag_id) = true) := by
        intro hbe
        have := (Bool.and_eq_true _ _).mp hbe
        exact hsup.2 (beq_iff_eq.mp this.1).symm
      rw [if_neg hro]

theorem groupRows_tags (rows : List JoinRow) (o : NoteOut) (h : o ∈ groupRows rows) :
    o.tags = (rows.filter (fun row => row.id == o.id && truthyTag row.tag_id)).map tagOut := by
  rcases foldl_groupStep_tags rows [] o h with ⟨o0, ho0, -, -⟩ | ⟨-, htags⟩
  · simp at ho0
  · exact htags

/-- C3: the grouping loop yields exactly one output note per distinct note id
(the ids are distinct and cover exactly the row ids), takes content,
note_date and created_at from the note's first row, and gives each note a
tags list with one entry per joined row of that note whose `tag_id` is
non-null — empty if there is none.  The hypothesis that no tag id is 0
reflects `SERIAL` tag ids starting at 1; for `tag_id = 0` the Python
truthiness test `if row['tag_id']` would drop the tag
(src/components/database.py, lines 461-483, 522-541 and 586-608). -/
theorem grouping_loop_spec (rows : List JoinRow)
    (hpos : ∀ r ∈ rows, r.tag_id ≠ some 0) :
    ((groupRows rows).map NoteOut.id).Nodup ∧
    (∀ i, i ∈ (groupRows rows).map NoteOut.id ↔ i ∈ rows.map JoinRow.id) ∧
    (∀ o ∈ groupRows rows, ∃ r, rows.find? (fun row => row.id == o.id) = some r ∧
      o.content = r.content ∧ o.note_date = r.note_date ∧ o.created_at = r.created_at) ∧
    (∀ o ∈ groupRows rows,
      o.tags = (rows.filter (fun row => row.id == o.id && row.tag_id.isSome)).map tagOut) ∧
    (∀ o ∈ groupRows rows,
      (∀ row ∈ rows, row.id = o.id → row.tag_id = none) → o.tags = []) := by
  have hids := groupRows_map_id rows
  have htagsEq : ∀ o ∈ groupRows rows,
      o.tags = (rows.filter (fun row => row.id == o.id && row.tag_id.isSome)).map tagOut := by
    intro o ho
    rw [groupRows_tags rows o ho]
    refine congrArg (List.map tagOut) (List.filter_congr ?_)
    intro row hrow
    cases htid : row.tag_id with
    | none => simp [truthyTag]
    | some t =>
      have ht : t ≠ 0 := by
        have := hpos row hrow
        rw [htid] at this
        intro h0
        exact this (by rw [h0])
      simp [truthyTag, ht]
  refine ⟨?_, ?_, ?_, htagsEq, ?_⟩
  · rw [hids]
    exact (firstOccs_ids_fresh rows []).1
  · intro i
    rw [hids, firstOccs_mem_ids]
    simp
  · intro o ho
    have hproj : projOut o ∈ (firstOccs [] rows).map projRow := by
      rw [← groupRows_map_projOut]
      exact List.mem_map_of_mem _ ho
    obtain ⟨r', hr', heq⟩ := List.mem_map.mp hproj
    simp only [projRow, projOut, Prod.mk.injEq] at heq
    obtain ⟨hid, hcont, hdate, hcreated⟩ := heq
    refine ⟨r', ?_, hcont.symm, hdate.symm, hcreated.symm⟩
    rw [← hid]
    exact firstOccs_find? rows [] r' hr'
  · intro o ho hnone
    rw [htagsEq o ho]
    have hnil : rows.filter (fun row => row.id == o.id && row.tag_id.isSome) = [] := by
      rw [List.filter_eq_nil_iff]
      intro row hrow
      by_cases hre : row.id = o.id
      · have := hnone row hrow hre
        simp [this, hre]
      · simp [hre]
    rw [hnil]
    rfl

/-- C3 witness: `grouping_loop_spec` applied at concrete rows (two rows of
one note with a tag, one row of a tagless note). -/
theorem grouping_loop_spec_witness :
    (∀ r ∈ ([⟨1, "a", 5, 6, some 2, some "T", some "#f"⟩,
             ⟨1, "a", 5, 6, some 3, some "U", some "#g"⟩,
             ⟨2, "b", 4, 1, none, none, none⟩] : List JoinRow), r.tag_id ≠ some 0) ∧
    ((groupRows [⟨1, "a", 5, 6, some 2, some "T", some "#f"⟩,
                 ⟨1, "a", 5, 6, some 3, some "U", some "#g"⟩,
                 ⟨2, "b", 4, 1, none, none, none⟩]).map NoteOut.id).Nodup :=
  ⟨by decide,
   (grouping_loop_spec [⟨1, "a", 5, 6, some 2, some "T", some "#f"⟩,
      ⟨1, "a", 5, 6, some 3, some "U", some "#g"⟩,
      ⟨2, "b", 4, 1, none, none, none⟩] (by decide)).1⟩

theorem joinNote_fields (db : DB) (n : NoteRow) :
    ∀ r ∈ joinNote db n, r.id = n.id ∧ r.content = n.content ∧
      r.note_date = n.note_date ∧ r.created_at = n.created_at := by
  intro r hr
  unfold joinNote at hr
  split at hr
  · have : r = ⟨n.id, n.content, n.note_date, n.created_at, none, none, none⟩ := by
      simpa using hr
    subst this
    exact ⟨rfl, rfl, rfl, rfl⟩
  · obtain ⟨a, _, rfl⟩ := List.mem_map.mp hr
    cases hf : db.tags.find? (fun t => t.id == a.tag_id) with
    | none => simp [hf]
    | some t => simp [hf]

theorem joinNote_ne_nil (db : DB) (n : NoteRow) : joinNote db n ≠ [] := by
  unfold joinNote
  split
  · simp
  · simp

theorem joinNote_id_mem (db : DB) (n : NoteRow) :
    n.id ∈ (joinNote db n).map JoinRow.id := by
  obtain ⟨r, hr⟩ := List.exists_mem_of_ne_nil _ (joinNote_ne_nil db n)
  have := (joinNote_fields db n r hr).1
  exact this ▸ List.mem_map_of_mem _ hr

theorem rowKeyLE_trans (a b c : JoinRow) (hab : rowKeyLE a b = true)
    (hbc : rowKeyLE b c = true) : rowKeyLE a c = true := by
  simp only [rowKeyLE, Bool.or_eq_true, Bool.and_eq_true, decide_eq_true_eq] at *
  omega

theorem rowKeyLE_total (a b : JoinRow) : (rowKeyLE a b || rowKeyLE b a) = true := by
  simp only [rowKeyLE, Bool.or_eq_true, Bool.and_eq_true, decide_eq_true_eq]
  omega

/-- C2: `get_weekly_notes` returns exactly the user's notes whose `note_date`
lies between the Monday of the current week and that Monday plus 6 days,
inclusive, with each returned note carrying the stored content and dates, no
id returned twice, and the list ordered by `note_date` descending then
`created_at` descending (src/components/database.py, lines 439-489). -/
theorem get_weekly_notes_spec (db : DB) (today : Int) (user_id : Nat) :
    (∀ i, i ∈ (get_weekly_notes db today user_id).map NoteOut.id ↔
      ∃ n ∈ db.notes, n.id = i ∧ n.user_id = user_id ∧
        weekStart today ≤ n.note_date ∧ n.note_date ≤ weekStart today + 6) ∧
    ((get_weekly_notes db today user_id).map NoteOut.id).Nodup ∧
    (∀ o ∈ get_weekly_notes db today user_id, ∃ n ∈ db.notes,
      n.id = o.id ∧ o.content = n.content ∧ o.note_date = n.note_date ∧
      o.created_at = n.created_at ∧ n.user_id = user_id ∧
      weekStart today ≤ n.note_date ∧ n.note_date ≤ weekStart today + 6) ∧
    (get_weekly_notes db today user_id).Pairwise (fun a b =>
      b.note_date < a.note_date ∨
        (a.note_date = b.note_date ∧ b.created_at ≤ a.created_at)) := by
  have hperm : (weeklyRows db today user_id).Perm
      ((db.notes.filter (fun n => n.user_id == user_id &&
        decide (weekStart today ≤ n.note_date) &&
        decide (n.note_date ≤ weekStart today + 6))).flatMap (joinNote db)) := by
    unfold weeklyRows
    exact List.mergeSort_perm _ _
  have hrow_src : ∀ r ∈ weeklyRows db today user_id, ∃ n ∈ db.notes,
      r.id = n.id ∧ r.content = n.content ∧ r.note_date = n.note_date ∧
      r.created_at = n.created_at ∧ n.user_id = user_id ∧
      weekStart today ≤ n.note_date ∧ n.note_date ≤ weekStart today + 6 := by
    intro r hr
    have hr2 := hperm.mem_iff.mp hr
    obtain ⟨n, hn, hrj⟩ := List.mem_flatMap.mp hr2
    obtain ⟨hn1, hn2⟩ := List.mem_filter.mp hn
    simp only [Bool.and_eq_true, beq_iff_eq, decide_eq_true_eq] at hn2
    obtain ⟨hid, hcont, hdate, hcreated⟩ := joinNote_fields db n r hrj
    exact ⟨n, hn1, hid, hcont, hdate, hcreated, hn2.1.1, hn2.1.2, hn2.2⟩
  have hids := groupRows_map_id (weeklyRows db today user_id)
  refine ⟨?_, ?_, ?_, ?_⟩
  · intro i
    show i ∈ (groupRows (weeklyRows db today user_id)).map NoteOut.id ↔ _
    rw [hids, firstOccs_mem_ids]
    simp only [List.not_mem_nil, not_false_eq_true, true_and]
    constructor
    · intro hi
      obtain ⟨r, hr, hri⟩ := List.mem_map.mp hi
      obtain ⟨n, hn, hid, -, -, -, huser, hlo, hhi⟩ := hrow_src r hr
      exact ⟨n, hn, by rw [← hri, hid], huser, hlo, hhi⟩
    · rintro ⟨n, hn, rfl, huser, hlo, hhi⟩
      have hnf : n ∈ db.notes.filter (fun n => n.user_id == user_id &&
          decide (weekStart today ≤ n.note_date) &&
          decide (n.note_date ≤ weekStart today + 6)) := by
        rw [List.mem_filter]
        refine ⟨hn, ?_⟩
        simp [huser, hlo, hhi]
      obtain ⟨r, hrj, hrid⟩ := List.mem_map.mp (joinNote_id_mem db n)
      have hrflat : r ∈ (db.notes.filter (fun n => n.user_id == user_id &&
          decide (weekStart today ≤ n.note_date) &&
          decide (n.note_date ≤ weekStart today + 6))).flatMap (joinNote db) :=
        List.mem_flatMap.mpr ⟨n, hnf, hrj⟩
      have hrW : r ∈ weeklyRows db today user_id := hperm.mem_iff.mpr hrflat
      exact List.mem_map.mpr ⟨r, hrW, hrid⟩
  · show ((groupRows (weeklyRows db today user_id)).map NoteOut.id).Nodup
    rw [hids]
    exact (firstOccs_ids_fresh _ []).1
  · intro o ho
    have hproj : projOut o ∈ (firstOccs [] (weeklyRows db today user_id)).map projRow := by
      rw [← groupRows_map_projOut]
      exact List.mem_map_of_mem _ ho
    obtain ⟨r', hr', heq⟩ := List.mem_map.mp hproj
    simp only [projRow, projOut, Prod.mk.injEq] at heq
    obtain ⟨hid, hcont, hdate, hcreated⟩ := heq
    have hrW : r' ∈ weeklyRows db today user_id :=
      (firstOccs_sublist _ []).subset hr'
    obtain ⟨n, hn, hid2, hcont2, hdate2, hcreated2, huser, hlo, hhi⟩ := hrow_src r' hrW
    exact ⟨n, hn, by rw [← hid, ← hid2], by rw [← hcont, hcont2],
      by rw [← hdate, hdate2], by rw [← hcreated, hcreated2], huser, hlo, hhi⟩
  · have hsorted : (weeklyRows db today user_id).Pairwise
        (fun a b => rowKeyLE a b = true) := by
      unfold weeklyRows
      exact List.sorted_mergeSort rowKeyLE_trans rowKeyLE_total _
    have hsub : (firstOccs [] (weeklyRows db today user_id)).Pairwise
        (fun a b => rowKeyLE a b = true) :=
      hsorted.sublist (firstOccs_sublist _ [])
    have hkey : ((firstOccs [] (weeklyRows db today user_id)).map projRow).Pairwise
        (fun p q : Nat × String × Int × Int => q.2.2.1 < p.2.2.1 ∨
          (p.2.2.1 = q.2.2.1 ∧ q.2.2.2 ≤ p.2.2.2)) := by
      rw [List.pairwise_map]
      refine hsub.imp ?_
      intro a b hab
      simpa [rowKeyLE, projRow] using hab
    rw [← groupRows_map_projOut] at hkey
    have := List.pairwise_map.mp hkey
    refine this.imp ?_
    intro a b hab
    simpa [projOut] using hab

end DailyNotes
